import Mathlib

/-!
Tensor descriptors of the model loader (`model.h`).

A shallow embedding of `struct TensorStorage`, of its constructor and of its member
functions `nelements`, `nbytes`, `nbytes_to_read`, `unsqueeze`, `reverse_ne` and `chunk`.

Integer model.  `int64_t` and `int` values are integers (`Int`), `size_t` values are
naturals (`Nat`), and every arithmetic operation is exact; C++ integer division of signed
operands truncates toward zero (`Int.tdiv`).  Where the source mixes an `int64_t` with a
`size_t` operand the signed value is first converted to `size_t` (`size_t_of_int64`).
The definitions therefore agree with the program on every run in which no intermediate
value leaves the range of its 64-bit type.

Reading or writing `ne[i]` outside the four slots of the array, and dividing by zero, have
no defined result in the source; the embedding returns `none` there.
-/

namespace SD

/-- Modelled from the spec: the `element_type` tag of a descriptor, "a tag from the target
numeric/quantized type set".  The enumeration `ggml_type` is declared by the tensor library
(`ggml/ggml.h`), which is not part of the sources; the plain and block-quantized types
listed here are the ones the examples below use. -/
inductive ggml_type
  | GGML_TYPE_F32
  | GGML_TYPE_F16
  | GGML_TYPE_Q4_0
  | GGML_TYPE_Q4_1
  | GGML_TYPE_Q5_0
  | GGML_TYPE_Q5_1
  | GGML_TYPE_Q8_0
  | GGML_TYPE_I8
  | GGML_TYPE_I16
  | GGML_TYPE_I32
  deriving DecidableEq, Repr

/-- The two functions of the tensor library that `nbytes` calls, taken as parameters:
`ggml_type_size ty` is the byte width of one block of `ty`, `ggml_blck_size ty` the number
of elements in one block (1 for the plain types).  Block sizes are positive. -/
structure TypeTraits where
  ggml_type_size : ggml_type → Nat
  ggml_blck_size : ggml_type → Nat
  blck_pos : ∀ ty, 0 < ggml_blck_size ty

/-- Byte width of one block of each type as the tensor library lays it out (the values
used in the examples): 4 and 2 bytes for the float types, a 2-byte scale plus 16 bytes of
nibbles for a 32-element `Q4_0` block, and so on. -/
def ggml_type_size : ggml_type → Nat
  | .GGML_TYPE_F32 => 4
  | .GGML_TYPE_F16 => 2
  | .GGML_TYPE_Q4_0 => 18
  | .GGML_TYPE_Q4_1 => 20
  | .GGML_TYPE_Q5_0 => 22
  | .GGML_TYPE_Q5_1 => 24
  | .GGML_TYPE_Q8_0 => 34
  | .GGML_TYPE_I8 => 1
  | .GGML_TYPE_I16 => 2
  | .GGML_TYPE_I32 => 4

/-- Elements per block of each type in the tensor library's layout. -/
def ggml_blck_size : ggml_type → Nat
  | .GGML_TYPE_F32 => 1
  | .GGML_TYPE_F16 => 1
  | .GGML_TYPE_Q4_0 => 32
  | .GGML_TYPE_Q4_1 => 32
  | .GGML_TYPE_Q5_0 => 32
  | .GGML_TYPE_Q5_1 => 32
  | .GGML_TYPE_Q8_0 => 32
  | .GGML_TYPE_I8 => 1
  | .GGML_TYPE_I16 => 1
  | .GGML_TYPE_I32 => 1

/-- The tensor library's own table, as an instance of the parameters. -/
def ggml : TypeTraits where
  ggml_type_size := ggml_type_size
  ggml_blck_size := ggml_blck_size
  blck_pos := by intro ty; cases ty <;> decide

/-- The array `int64_t ne[4]`. -/
structure Int64x4 where
  e0 : Int
  e1 : Int
  e2 : Int
  e3 : Int
  deriving DecidableEq, Repr

/-- Read `a[i]`; `none` when `i` is not one of the four slots. -/
def Int64x4.get? (a : Int64x4) (i : Int) : Option Int :=
  if i = 0 then some a.e0
  else if i = 1 then some a.e1
  else if i = 2 then some a.e2
  else if i = 3 then some a.e3
  else none

/-- Write `a[i] = v`; `none` when `i` is not one of the four slots. -/
def Int64x4.set? (a : Int64x4) (i : Int) (v : Int) : Option Int64x4 :=
  if i = 0 then some { a with e0 := v }
  else if i = 1 then some { a with e1 := v }
  else if i = 2 then some { a with e2 := v }
  else if i = 3 then some { a with e3 := v }
  else none

/-- The implicit conversion of an `int64_t` operand to `size_t`: a non-negative value is
kept, a negative value `v` becomes `2^64 + v`. -/
def size_t_of_int64 (v : Int) : Nat :=
  if v < 0 then (v + 18446744073709551616).toNat else v.toNat

/-- The record `struct TensorStorage`, with the default member initialisers of the source. -/
structure TensorStorage where
  name : String := ""
  type : ggml_type := ggml_type.GGML_TYPE_F32
  is_bf16 : Bool := false
  ne : Int64x4 := ⟨1, 1, 1, 1⟩
  n_dims : Int := 0
  file_index : Nat := 0
  index_in_zip : Int := -1
  offset : Nat := 0
  deriving DecidableEq, Repr

namespace TensorStorage

/-- The loop `for (int i = 0; i < n_dims; i++) this->ne[i] = ne[i];` of the constructor:
`k` iterations remain, `i` is the loop counter, `src` is the caller's array. -/
def init_loop (src : List Int) : Nat → Int → Int64x4 → Option Int64x4
  | 0, _, dst => some dst
  | k + 1, i, dst =>
    if i < 0 then none
    else
      match src.get? i.toNat with
      | none => none
      | some v =>
        match dst.set? i v with
        | none => none
        | some dst1 => init_loop src k (i + 1) dst1

/-- The constructor `TensorStorage(name, type, ne, n_dims, file_index, offset)`. -/
def init (name : String) (type : ggml_type) (ne : List Int) (n_dims : Int)
    (file_index : Nat) (offset : Nat) : Option TensorStorage :=
  match init_loop ne n_dims.toNat 0 ⟨1, 1, 1, 1⟩ with
  | none => none
  | some dst =>
    some { name := name, type := type, ne := dst, n_dims := n_dims,
           file_index := file_index, offset := offset }

/-- The source's `nelements()`: `ne[0] * ne[1] * ne[2] * ne[3]`. -/
def nelements (t : TensorStorage) : Int :=
  t.ne.e0 * t.ne.e1 * t.ne.e2 * t.ne.e3

/-- The source's `nbytes()`:
`nelements() * ggml_type_size(type) / ggml_blck_size(type)`, the product first. -/
def nbytes (G : TypeTraits) (t : TensorStorage) : Int :=
  Int.tdiv (t.nelements * (G.ggml_type_size t.type : Int)) (G.ggml_blck_size t.type : Int)

/-- The source's `nbytes_to_read()`. -/
def nbytes_to_read (G : TypeTraits) (t : TensorStorage) : Int :=
  if t.is_bf16 then Int.tdiv (t.nbytes G) 2 else t.nbytes G

/-- The source's `unsqueeze()`. -/
def unsqueeze (t : TensorStorage) : TensorStorage :=
  if t.n_dims = 2 then
    { t with n_dims := 4, ne := ⟨1, 1, t.ne.e0, t.ne.e1⟩ }
  else t

/-- First loop of `reverse_ne`: `new_ne[i] = ne[n_dims - 1 - i]` for `i` in `[0, n_dims)`;
`k` iterations remain. -/
def reverse_ne_fill (ne : Int64x4) (n_dims : Int) : Nat → Int → Int64x4 → Option Int64x4
  | 0, _, new_ne => some new_ne
  | k + 1, i, new_ne =>
    match ne.get? (n_dims - 1 - i) with
    | none => none
    | some v =>
      match new_ne.set? i v with
      | none => none
      | some new_ne1 => reverse_ne_fill ne n_dims k (i + 1) new_ne1

/-- Second loop of `reverse_ne`: `ne[i] = new_ne[i]` for `i` in `[0, n_dims)`. -/
def reverse_ne_copy (new_ne : Int64x4) : Nat → Int → Int64x4 → Option Int64x4
  | 0, _, ne => some ne
  | k + 1, i, ne =>
    match new_ne.get? i with
    | none => none
    | some v =>
      match ne.set? i v with
      | none => none
      | some ne1 => reverse_ne_copy new_ne k (i + 1) ne1

/-- The source's `reverse_ne()`: the receiver after the call. -/
def reverse_ne (t : TensorStorage) : Option TensorStorage :=
  match reverse_ne_fill t.ne t.n_dims t.n_dims.toNat 0 ⟨1, 1, 1, 1⟩ with
  | none => none
  | some new_ne =>
    match reverse_ne_copy new_ne t.n_dims.toNat 0 t.ne with
    | none => none
    | some ne1 => some { t with ne := ne1 }

/-- Body of the loop of `chunk` for the counter value `i`: a copy of the (reversed)
receiver `r` with `ne[0] = ne[0] / n` and `offset = offset + i * chunk_size`, reversed
back. -/
def chunk_body (r : TensorStorage) (n chunk_size i : Nat) : Option TensorStorage :=
  reverse_ne
    { r with
      ne := { r.ne with e0 := ((size_t_of_int64 r.ne.e0 / n : Nat) : Int) },
      offset := r.offset + i * chunk_size }

/-- The loop `for (int i = 0; i < n; i++)` of `chunk`: `k` iterations remain, the chunks
are pushed in the order of `i`. -/
def chunk_loop (r : TensorStorage) (n chunk_size : Nat) : Nat → Nat → Option (List TensorStorage)
  | 0, _ => some []
  | k + 1, i =>
    match chunk_body r n chunk_size i with
    | none => none
    | some chunk_i =>
      match chunk_loop r n chunk_size k (i + 1) with
      | none => none
      | some rest => some (chunk_i :: rest)

/-- The source's `chunk(n)`: the returned vector together with the receiver after the
call.  `n = 0` is a division by zero. -/
def chunk (G : TypeTraits) (t : TensorStorage) (n : Nat) :
    Option (List TensorStorage × TensorStorage) :=
  if n = 0 then none
  else
    let chunk_size : Nat := size_t_of_int64 (t.nbytes_to_read G) / n
    match reverse_ne t with
    | none => none
    | some r =>
      match chunk_loop r n chunk_size n 0 with
      | none => none
      | some chunks =>
        match reverse_ne r with
        | none => none
        | some t1 => some (chunks, t1)

/-- The outermost dimension of a descriptor, `ne[n_dims - 1]` in stored order. -/
def outer_dim (t : TensorStorage) : Option Int :=
  t.ne.get? (t.n_dims - 1)

/-- A one-dimensional `Q4_0` tensor of 32 elements (one block of 18 bytes) at offset 7. -/
def q4_0_block : TensorStorage :=
  { name := "q4", type := .GGML_TYPE_Q4_0, ne := ⟨32, 1, 1, 1⟩, n_dims := 1, offset := 7 }

/-- A one-dimensional `Q8_0` tensor of 32 elements (one block of 34 bytes). -/
def q8_0_block : TensorStorage :=
  { name := "q8", type := .GGML_TYPE_Q8_0, ne := ⟨32, 1, 1, 1⟩, n_dims := 1 }

/-- A one-dimensional `Q5_0` tensor of 64 elements (two blocks of 22 bytes) at offset 100. -/
def q5_0_row : TensorStorage :=
  { name := "q5", type := .GGML_TYPE_Q5_0, ne := ⟨64, 1, 1, 1⟩, n_dims := 1, offset := 100 }

/-- A float32 matrix with `ne = [3, 7]` (84 bytes) at offset 0. -/
def f32_3x7 : TensorStorage :=
  { name := "w", ne := ⟨3, 7, 1, 1⟩, n_dims := 2 }

/-- A `Q4_0` matrix with `ne = [64, 6]` (12 blocks, 216 bytes) at offset 1024. -/
def q4_0_matrix : TensorStorage :=
  { name := "m", type := .GGML_TYPE_Q4_0, ne := ⟨64, 6, 1, 1⟩, n_dims := 2, offset := 1024 }

/-- A float32 matrix with `ne = [5, 4]` whose source is stored as bf16 (40 bytes to read),
inside entry 2 of an archive. -/
def bf16_5x4 : TensorStorage :=
  { name := "b", is_bf16 := true, ne := ⟨5, 4, 1, 1⟩, n_dims := 2, file_index := 1,
    index_in_zip := 2, offset := 64 }

/-- Closed form of the array after `reverse_ne`: the first `n_dims` entries in reverse
order, for `n_dims` at most 4 (used to state the lemmas on `reverse_ne`). -/
def reversed (a : Int64x4) (n_dims : Int) : Int64x4 :=
  if n_dims = 2 then ⟨a.e1, a.e0, a.e2, a.e3⟩
  else if n_dims = 3 then ⟨a.e2, a.e1, a.e0, a.e3⟩
  else if n_dims = 4 then ⟨a.e3, a.e2, a.e1, a.e0⟩
  else a

/-- Closed form of the `i`-th descriptor pushed by `chunk(n)` (used to state the lemmas on
`chunk`). -/
def chunk_at (G : TypeTraits) (t : TensorStorage) (n i : Nat) : TensorStorage :=
  { t with
    ne := reversed
      { reversed t.ne t.n_dims with
        e0 := ((size_t_of_int64 (reversed t.ne t.n_dims).e0 / n : Nat) : Int) } t.n_dims,
    offset := t.offset + i * (size_t_of_int64 (t.nbytes_to_read G) / n) }

/-- The well-formedness predicate of descriptors: `n_dims` in `[0,4]`, every `ne[i] >= 1`,
and `ne[i] = 1` for every `i >= n_dims`. -/
def well_formed (t : TensorStorage) : Prop :=
  (0 ≤ t.n_dims ∧ t.n_dims ≤ 4) ∧
  (1 ≤ t.ne.e0 ∧ 1 ≤ t.ne.e1 ∧ 1 ≤ t.ne.e2 ∧ 1 ≤ t.ne.e3) ∧
  (t.n_dims ≤ 0 → t.ne.e0 = 1) ∧ (t.n_dims ≤ 1 → t.ne.e1 = 1) ∧
  (t.n_dims ≤ 2 → t.ne.e2 = 1) ∧ (t.n_dims ≤ 3 → t.ne.e3 = 1)

/-- A one-dimensional `Q4_0` descriptor whose only size is `-1`. -/
def q4_0_negative : TensorStorage :=
  { name := "n", type := .GGML_TYPE_Q4_0, ne := ⟨-1, 1, 1, 1⟩, n_dims := 1 }

/-- A one-dimensional float32 descriptor whose only size is `-4`. -/
def f32_negative : TensorStorage :=
  { name := "v", ne := ⟨-4, 1, 1, 1⟩, n_dims := 1 }

/-- A float32 tensor with `ne = [2, 3, 5]` (120 bytes) at offset 16. -/
def f32_2x3x5 : TensorStorage :=
  { name := "k", ne := ⟨2, 3, 5, 1⟩, n_dims := 3, offset := 16 }

instance (t : TensorStorage) : Decidable t.well_formed := by
  unfold well_formed
  infer_instance

theorem reverse_ne_eq (t : TensorStorage) (h4 : t.n_dims ≤ 4) :
    t.reverse_ne = some { t with ne := reversed t.ne t.n_dims } := by
  obtain ⟨name, ty, bf, ne, nd, fi, iz, off⟩ := t
  obtain ⟨a, b, c, d⟩ := ne
  simp only at h4
  by_cases h0 : nd ≤ 0
  · have hz : nd.toNat = 0 := by omega
    have h2 : nd ≠ 2 := by omega
    have h3 : nd ≠ 3 := by omega
    have h5 : nd ≠ 4 := by omega
    simp [reverse_ne, reverse_ne_fill, reverse_ne_copy, reversed, hz, h2, h3, h5]
  · have hc : nd = 1 ∨ nd = 2 ∨ nd = 3 ∨ nd = 4 := by omega
    rcases hc with h | h | h | h <;> subst h <;> rfl

theorem reversed_reversed (a : Int64x4) (n_dims : Int) :
    reversed (reversed a n_dims) n_dims = a := by
  unfold reversed
  split_ifs <;> rfl

theorem reverse_ne_none (t : TensorStorage) (h4 : 4 < t.n_dims) : t.reverse_ne = none := by
  obtain ⟨name, ty, bf, ne, nd, fi, iz, off⟩ := t
  simp only at h4
  obtain ⟨k, hk⟩ : ∃ k : Nat, nd.toNat = k + 1 := ⟨nd.toNat - 1, by omega⟩
  have h : ne.get? (nd - 1) = none := by
    simp only [Int64x4.get?]
    rw [if_neg (by omega), if_neg (by omega), if_neg (by omega), if_neg (by omega)]
  simp [reverse_ne, hk, reverse_ne_fill, h]

theorem chunk_loop_eq (r : TensorStorage) (n cs : Nat) (g : Nat → TensorStorage)
    (hg : ∀ i, chunk_body r n cs i = some (g i)) :
    ∀ k i, chunk_loop r n cs k i = some ((List.range' i k).map g) := by
  intro k
  induction k with
  | zero => intro i; simp [chunk_loop]
  | succ k ih => intro i; simp [chunk_loop, hg, ih, List.range'_succ]

theorem chunk_eq (G : TypeTraits) (t : TensorStorage) (n : Nat) (hn : n ≠ 0)
    (h4 : t.n_dims ≤ 4) :
    chunk G t n = some ((List.range n).map (chunk_at G t n), t) := by
  have hr := reverse_ne_eq t h4
  have hb : ∀ i, chunk_body { t with ne := reversed t.ne t.n_dims } n
      (size_t_of_int64 (t.nbytes_to_read G) / n) i = some (chunk_at G t n i) := by
    intro i
    unfold chunk_body
    rw [reverse_ne_eq _ (by simpa using h4)]
    rfl
  have hl := chunk_loop_eq _ n _ _ hb n 0
  have hr2 : reverse_ne { t with ne := reversed t.ne t.n_dims } = some t := by
    rw [reverse_ne_eq _ (by simpa using h4)]
    simp [reversed_reversed]
  unfold chunk
  rw [if_neg hn]
  simp only [hr, hl, hr2, List.range_eq_range']

theorem size_t_of_int64_nonneg (v : Int) (h : 0 ≤ v) : (size_t_of_int64 v : Int) = v := by
  unfold size_t_of_int64
  rw [if_neg (by omega)]
  omega

theorem outer_quot_mul (d : Int) (n : Nat) (h0 : 0 ≤ d) (hd : (n : Int) ∣ d) :
    ((size_t_of_int64 d / n : Nat) : Int) * n = d := by
  rw [Int.natCast_div, size_t_of_int64_nonneg d h0]
  exact Int.ediv_mul_cancel hd

theorem outer_dim_range (t : TensorStorage) (d : Int) (h : t.outer_dim = some d) :
    1 ≤ t.n_dims ∧ t.n_dims ≤ 4 := by
  unfold outer_dim Int64x4.get? at h
  split_ifs at h <;> omega

/-- The geometry of one chunk: same type and flag, the outermost dimension replaced by the
quotient, every other size kept. -/
theorem chunk_at_geometry (G : TypeTraits) (t : TensorStorage) (n i : Nat) (d : Int)
    (h : t.outer_dim = some d) :
    (chunk_at G t n i).type = t.type ∧ (chunk_at G t n i).is_bf16 = t.is_bf16 ∧
    (chunk_at G t n i).outer_dim = some ((size_t_of_int64 d / n : Nat) : Int) ∧
    ∃ rest : Int, t.nelements = d * rest ∧
      (chunk_at G t n i).nelements = ((size_t_of_int64 d / n : Nat) : Int) * rest := by
  obtain ⟨name, ty, bf, ne, nd, fi, iz, off⟩ := t
  obtain ⟨a, b, c, e⟩ := ne
  have hr := outer_dim_range _ d h
  simp only at hr
  have hc : nd = 1 ∨ nd = 2 ∨ nd = 3 ∨ nd = 4 := by omega
  rcases hc with h1 | h1 | h1 | h1 <;> subst h1 <;>
    simp [outer_dim, Int64x4.get?] at h <;> subst h <;>
    refine ⟨rfl, rfl, ?_, ?_⟩
  · simp [chunk_at, outer_dim, Int64x4.get?, reversed]
  · exact ⟨b * c * e, by simp [nelements]; ring, by simp [chunk_at, nelements, reversed]; ring⟩
  · simp [chunk_at, outer_dim, Int64x4.get?, reversed]
  · exact ⟨a * c * e, by simp [nelements]; ring, by simp [chunk_at, nelements, reversed]; ring⟩
  · simp [chunk_at, outer_dim, Int64x4.get?, reversed]
  · exact ⟨a * b * e, by simp [nelements]; ring, by simp [chunk_at, nelements, reversed]; ring⟩
  · simp [chunk_at, outer_dim, Int64x4.get?, reversed]
  · exact ⟨a * b * c, by simp [nelements]; ring, by simp [chunk_at, nelements, reversed]; ring⟩

theorem nat_div3 (A b k n : Nat) (hn : 0 < n) : A * n / b / k / n = A / b / k := by
  rw [Nat.div_div_eq_div_mul, Nat.div_div_eq_div_mul, Nat.div_div_eq_div_mul,
    ← Nat.mul_assoc, Nat.mul_div_mul_right _ _ hn]

/-- Truncating division by the block size and by the bf16 divisor commutes with splitting
the element count into `n` equal parts. -/
theorem tdiv3 (y : Int) (b k n : Nat) (hn : 0 < n) :
    Int.tdiv (Int.tdiv (Int.tdiv (y * n) b) k) n = Int.tdiv (Int.tdiv y b) k := by
  rcases Int.eq_nat_or_neg y with ⟨a, rfl | rfl⟩
  · simp only [← Int.natCast_mul, ← Int.ofNat_tdiv]
    exact_mod_cast nat_div3 a b k n hn
  · simp only [Int.neg_mul, Int.neg_tdiv, ← Int.natCast_mul, ← Int.ofNat_tdiv]
    exact_mod_cast congrArg (fun x : Nat => -(x : Int)) (nat_div3 a b k n hn)

theorem nbytes_to_read_eq (G : TypeTraits) (t : TensorStorage) :
    t.nbytes_to_read G =
      Int.tdiv (Int.tdiv (t.nelements * (G.ggml_type_size t.type : Int))
        (G.ggml_blck_size t.type : Int)) ((if t.is_bf16 then 2 else 1 : Nat) : Int) := by
  unfold nbytes_to_read nbytes
  cases t.is_bf16 <;> simp

/-- Bytes to read of one chunk: the truncated `n`-th part of the receiver's. -/
theorem chunk_at_nbytes_to_read (G : TypeTraits) (t : TensorStorage) (n i : Nat) (d : Int)
    (h : t.outer_dim = some d) (hn : 0 < n) (h0 : 0 ≤ d) (hd : (n : Int) ∣ d) :
    (chunk_at G t n i).nbytes_to_read G = Int.tdiv (t.nbytes_to_read G) n := by
  obtain ⟨hty, hbf, -, rest, hE, hEc⟩ := chunk_at_geometry G t n i d h
  have hq := outer_quot_mul d n h0 hd
  generalize ((size_t_of_int64 d / n : Nat) : Int) = q at hq hEc
  rw [nbytes_to_read_eq G t, nbytes_to_read_eq G (chunk_at G t n i), hty, hbf, hE, hEc]
  have hmul : d * rest * (G.ggml_type_size t.type : Int)
      = q * rest * (G.ggml_type_size t.type : Int) * n := by rw [← hq]; ring
  rw [hmul, tdiv3 _ _ _ n hn]

theorem chunks_getElem? (f : Nat → TensorStorage) (n i : Nat) (c : TensorStorage)
    (h : ((List.range n).map f)[i]? = some c) : i < n ∧ f i = c := by
  rw [List.getElem?_map] at h
  by_cases hi : i < n
  · rw [List.getElem?_range hi] at h
    exact ⟨hi, by simpa using h⟩
  · rw [List.getElem?_eq_none (by simpa using hi)] at h
    simp at h

theorem tdiv_nonpos_of_nonpos (a b : Int) (ha : a ≤ 0) (hb : 0 ≤ b) : Int.tdiv a b ≤ 0 := by
  have h := @Int.tdiv_nonneg (-a) b (by omega) hb
  rw [Int.neg_tdiv] at h
  omega

theorem nbytes_to_read_nonneg (G : TypeTraits) (t : TensorStorage) (h : 0 ≤ t.nelements) :
    0 ≤ t.nbytes_to_read G := by
  rw [nbytes_to_read_eq]
  apply Int.tdiv_nonneg _ (by positivity)
  apply Int.tdiv_nonneg _ (by positivity)
  positivity

theorem nbytes_to_read_nonpos (G : TypeTraits) (t : TensorStorage) (h : t.nelements ≤ 0) :
    t.nbytes_to_read G ≤ 0 := by
  rw [nbytes_to_read_eq]
  apply tdiv_nonpos_of_nonpos _ _ _ (by positivity)
  apply tdiv_nonpos_of_nonpos _ _ _ (by positivity)
  exact Int.mul_nonpos_of_nonpos_of_nonneg h (by positivity)

/-- The stride of `chunk` when the receiver's byte count is non-negative. -/
theorem stride_eq (x : Int) (n : Nat) (hx : 0 ≤ x) :
    ((size_t_of_int64 x / n : Nat) : Int) = Int.tdiv x n := by
  rw [Int.natCast_div, size_t_of_int64_nonneg x hx, Int.tdiv_eq_ediv hx (by positivity)]

theorem chunk_at_offset (G : TypeTraits) (t : TensorStorage) (n i : Nat) :
    (chunk_at G t n i).offset = t.offset + i * (size_t_of_int64 (t.nbytes_to_read G) / n) :=
  rfl

/-- C3 (amended): `chunk(n)` has no failure path for an uneven split.  For every
descriptor `t` with `n_dims` in `[1,4]` and non-negative outermost dimension `d`, and every
`n >= 1`, whether or not `n` divides `d`, `t.chunk(n)` returns `n` descriptors, each with
outermost dimension the rounded-down quotient `d / n`. -/
theorem chunk_uneven_truncates (G : TypeTraits) (t : TensorStorage) (n : Nat) (d : Int)
    (hn : 1 ≤ n) (hd : t.outer_dim = some d) (h0 : 0 ≤ d) :
    ∃ cs t1, t.chunk G n = some (cs, t1) ∧ cs.length = n ∧
      ∀ c ∈ cs, c.outer_dim = some (d / (n : Int)) := by
  have hr := outer_dim_range t d hd
  refine ⟨_, _, chunk_eq G t n (by omega) hr.2, by simp, ?_⟩
  intro c hc
  obtain ⟨i, -, rfl⟩ := List.mem_map.1 hc
  obtain ⟨-, -, ho, -⟩ := chunk_at_geometry G t n i d hd
  rw [ho, Int.natCast_div, size_t_of_int64_nonneg d h0]

/-- C3 (counterexample): a float32 matrix with `ne = [3, 7]` split in 2: 2 does not divide
the outermost dimension 7, yet `chunk(2)` returns 2 descriptors with `ne = [3, 3]` (the
rounded-down quotient) at offsets 0 and 42. -/
theorem chunk_uneven_counterexample :
    f32_3x7.outer_dim = some 7 ∧ ¬ ((2 : Nat) : Int) ∣ 7 ∧
    (f32_3x7.chunk ggml 2).map (fun p => p.1.map (fun c => (c.ne, c.offset)))
      = some [(⟨3, 3, 1, 1⟩, 0), (⟨3, 3, 1, 1⟩, 42)] := by
  decide

/-- C6: for every descriptor with `n_dims` in `[0,4]`, calling `reverse_ne()` twice
succeeds and gives back the descriptor itself: all four entries of `ne` and every other
field are as before the first call. -/
theorem reverse_ne_twice (t : TensorStorage) (_h0 : 0 ≤ t.n_dims) (h4 : t.n_dims ≤ 4) :
    t.reverse_ne.bind reverse_ne = some t := by
  rw [reverse_ne_eq t h4, Option.some_bind, reverse_ne_eq _ (by simpa using h4)]
  simp [reversed_reversed]

/-- C7: for every 2-D descriptor (`n_dims = 2`, `ne[2] = ne[3] = 1`), `unsqueeze()` keeps
`nelements()`, and with it `nbytes()` and `nbytes_to_read()`. -/
theorem unsqueeze_preserves_nelements (G : TypeTraits) (t : TensorStorage)
    (h2 : t.n_dims = 2) (he2 : t.ne.e2 = 1) (he3 : t.ne.e3 = 1) :
    t.unsqueeze.nelements = t.nelements ∧ t.unsqueeze.nbytes G = t.nbytes G ∧
    t.unsqueeze.nbytes_to_read G = t.nbytes_to_read G := by
  have hE : t.unsqueeze.nelements = t.nelements := by
    simp [unsqueeze, h2, nelements, he2, he3]
  have hty : t.unsqueeze.type = t.type := by simp [unsqueeze, h2]
  have hbf : t.unsqueeze.is_bf16 = t.is_bf16 := by simp [unsqueeze, h2]
  have hB : t.unsqueeze.nbytes G = t.nbytes G := by
    simp only [nbytes, hE, hty]
  refine ⟨hE, hB, ?_⟩
  simp only [nbytes_to_read, hB, hbf]

/-- C8: for every descriptor with `n_dims = 2` and sizes `ne[0] = a`, `ne[1] = b`, after
`unsqueeze()` the descriptor has `n_dims = 4` and `ne = [1, 1, a, b]`; `name`, `type`,
`is_bf16`, `file_index`, `index_in_zip` and `offset` are unchanged. -/
theorem unsqueeze_fields (t : TensorStorage) (h2 : t.n_dims = 2) :
    t.unsqueeze.n_dims = 4 ∧ t.unsqueeze.ne = ⟨1, 1, t.ne.e0, t.ne.e1⟩ ∧
    t.unsqueeze.name = t.name ∧ t.unsqueeze.type = t.type ∧
    t.unsqueeze.is_bf16 = t.is_bf16 ∧ t.unsqueeze.file_index = t.file_index ∧
    t.unsqueeze.index_in_zip = t.index_in_zip ∧ t.unsqueeze.offset = t.offset := by
  simp [unsqueeze, h2]

/-- C9: for every descriptor, `nbytes_to_read()` equals `nbytes()` when `is_bf16` is false
and `nbytes() / 2` (truncating integer division) when `is_bf16` is true. -/
theorem nbytes_to_read_cases (G : TypeTraits) (t : TensorStorage) :
    (t.is_bf16 = false → t.nbytes_to_read G = t.nbytes G) ∧
    (t.is_bf16 = true → t.nbytes_to_read G = Int.tdiv (t.nbytes G) 2) := by
  constructor <;> intro h <;> simp [nbytes_to_read, h]

/-- Witness of C3 (amended): the float32 matrix `[3, 7]` split in 2, an uneven split. -/
theorem chunk_uneven_truncates_witness :
    (1 ≤ 2 ∧ f32_3x7.outer_dim = some 7 ∧ (0 : Int) ≤ 7) ∧
    ∃ cs t1, f32_3x7.chunk ggml 2 = some (cs, t1) ∧ cs.length = 2 ∧
      ∀ c ∈ cs, c.outer_dim = some (7 / ((2 : Nat) : Int)) :=
  ⟨by decide, chunk_uneven_truncates ggml f32_3x7 2 7 (by decide) (by decide) (by decide)⟩

/-- Witness of C6: the float32 matrix `[3, 7]`, reversed twice. -/
theorem reverse_ne_twice_witness :
    (0 ≤ f32_3x7.n_dims ∧ f32_3x7.n_dims ≤ 4) ∧
    f32_3x7.reverse_ne.bind reverse_ne = some f32_3x7 :=
  ⟨by decide, reverse_ne_twice f32_3x7 (by decide) (by decide)⟩

/-- Witness of C7: the `Q4_0` matrix `[64, 6]`. -/
theorem unsqueeze_preserves_nelements_witness :
    (q4_0_matrix.n_dims = 2 ∧ q4_0_matrix.ne.e2 = 1 ∧ q4_0_matrix.ne.e3 = 1) ∧
    (q4_0_matrix.unsqueeze.nelements = q4_0_matrix.nelements ∧
      q4_0_matrix.unsqueeze.nbytes ggml = q4_0_matrix.nbytes ggml ∧
      q4_0_matrix.unsqueeze.nbytes_to_read ggml = q4_0_matrix.nbytes_to_read ggml) :=
  ⟨by decide, unsqueeze_preserves_nelements ggml q4_0_matrix (by decide) (by decide) (by decide)⟩

/-- Witness of C8: the bf16-stored float32 matrix `[5, 4]` becomes `[1, 1, 5, 4]`. -/
theorem unsqueeze_fields_witness :
    bf16_5x4.n_dims = 2 ∧
    (bf16_5x4.unsqueeze.n_dims = 4 ∧ bf16_5x4.unsqueeze.ne = ⟨1, 1, bf16_5x4.ne.e0, bf16_5x4.ne.e1⟩ ∧
      bf16_5x4.unsqueeze.name = bf16_5x4.name ∧ bf16_5x4.unsqueeze.type = bf16_5x4.type ∧
      bf16_5x4.unsqueeze.is_bf16 = bf16_5x4.is_bf16 ∧
      bf16_5x4.unsqueeze.file_index = bf16_5x4.file_index ∧
      bf16_5x4.unsqueeze.index_in_zip = bf16_5x4.index_in_zip ∧
      bf16_5x4.unsqueeze.offset = bf16_5x4.offset) :=
  ⟨by decide, unsqueeze_fields bf16_5x4 (by decide)⟩

/-- The sizes of one chunk: slot `n_dims - 1` holds the quotient by `n`, every other slot
is the receiver's. -/
theorem chunk_at_ne (G : TypeTraits) (t : TensorStorage) (n i : Nat)
    (h1 : 1 ≤ t.n_dims) (h4 : t.n_dims ≤ 4) :
    (chunk_at G t n i).ne.get? (t.n_dims - 1)
      = (t.ne.get? (t.n_dims - 1)).map (fun d => ((size_t_of_int64 d / n : Nat) : Int)) ∧
    ∀ j : Int, j ≠ t.n_dims - 1 → (chunk_at G t n i).ne.get? j = t.ne.get? j := by
  obtain ⟨name, ty, bf, ne, nd, fi, iz, off⟩ := t
  obtain ⟨a, b, c, e⟩ := ne
  simp only at h1 h4
  have hc : nd = 1 ∨ nd = 2 ∨ nd = 3 ∨ nd = 4 := by omega
  rcases hc with h | h | h | h <;> subst h <;>
    refine ⟨by simp [chunk_at, reversed, Int64x4.get?], ?_⟩ <;>
    intro j hj <;> simp only [chunk_at, reversed, Int64x4.get?] <;> norm_num at hj ⊢ <;>
    split_ifs <;> rfl

theorem chunk_at_frame (G : TypeTraits) (t : TensorStorage) (n i : Nat) :
    (chunk_at G t n i).name = t.name ∧ (chunk_at G t n i).type = t.type ∧
    (chunk_at G t n i).is_bf16 = t.is_bf16 ∧ (chunk_at G t n i).n_dims = t.n_dims ∧
    (chunk_at G t n i).file_index = t.file_index ∧
    (chunk_at G t n i).index_in_zip = t.index_in_zip :=
  ⟨rfl, rfl, rfl, rfl, rfl, rfl⟩

theorem nelements_pos_of_pos (t : TensorStorage)
    (hpos : 0 < t.ne.e0 ∧ 0 < t.ne.e1 ∧ 0 < t.ne.e2 ∧ 0 < t.ne.e3) : 0 < t.nelements := by
  obtain ⟨p0, p1, p2, p3⟩ := hpos
  unfold nelements
  positivity

/-- C16: `chunk` does not change its receiver: for every descriptor `t` with `n_dims` in
`[0,4]` and every `n >= 1`, `t.chunk(n)` returns and the receiver after the call equals `t`
in every field. -/
theorem chunk_receiver_unchanged (G : TypeTraits) (t : TensorStorage) (n : Nat)
    (_h0 : 0 ≤ t.n_dims) (h4 : t.n_dims ≤ 4) (hn : 1 ≤ n) :
    ∃ cs t1, t.chunk G n = some (cs, t1) ∧ t1 = t :=
  ⟨_, _, chunk_eq G t n (by omega) h4, rfl⟩

theorem well_formed_nelements (t : TensorStorage) (h : t.well_formed) : 0 < t.nelements := by
  obtain ⟨-, ⟨p0, p1, p2, p3⟩, -⟩ := h
  exact nelements_pos_of_pos t ⟨by omega, by omega, by omega, by omega⟩

theorem well_formed_reversed (t : TensorStorage) (h : t.well_formed) :
    well_formed { t with ne := reversed t.ne t.n_dims } := by
  obtain ⟨name, ty, bf, ne, nd, fi, iz, off⟩ := t
  obtain ⟨a, b, c, e⟩ := ne
  obtain ⟨⟨h0, h4⟩, ⟨p0, p1, p2, p3⟩, t0, t1, t2, t3⟩ := h
  simp only at h0 h4 p0 p1 p2 p3 t0 t1 t2 t3
  have hc : nd = 0 ∨ nd = 1 ∨ nd = 2 ∨ nd = 3 ∨ nd = 4 := by omega
  rcases hc with h | h | h | h | h <;> subst h <;>
    simp only [well_formed, reversed] <;> norm_num <;> omega

theorem quot_ge_one (d : Int) (n : Nat) (hd : 1 ≤ d) (hdiv : (n : Int) ∣ d) :
    1 ≤ ((size_t_of_int64 d / n : Nat) : Int) := by
  have hq := outer_quot_mul d n (by omega) hdiv
  generalize ((size_t_of_int64 d / n : Nat) : Int) = q at hq ⊢
  by_contra hlt
  have hle := Int.mul_nonpos_of_nonpos_of_nonneg (show q ≤ 0 by omega) (Int.ofNat_nonneg n)
  rw [hq] at hle
  omega

theorem well_formed_chunk_at (G : TypeTraits) (t : TensorStorage) (n i : Nat) (d : Int)
    (h : t.well_formed) (hd : t.outer_dim = some d) (hdiv : (n : Int) ∣ d) :
    (chunk_at G t n i).well_formed := by
  have hr := outer_dim_range t d hd
  obtain ⟨name, ty, bf, ne, nd, fi, iz, off⟩ := t
  obtain ⟨a, b, c, e⟩ := ne
  obtain ⟨⟨h0, h4⟩, ⟨p0, p1, p2, p3⟩, t0, t1, t2, t3⟩ := h
  simp only at hr h0 h4 p0 p1 p2 p3 t0 t1 t2 t3
  have hc : nd = 1 ∨ nd = 2 ∨ nd = 3 ∨ nd = 4 := by omega
  rcases hc with h | h | h | h <;> subst h <;>
    simp [outer_dim, Int64x4.get?] at hd <;> subst hd <;>
    simp only [well_formed, chunk_at, reversed] <;> norm_num <;>
    have hq := quot_ge_one _ n (by assumption) hdiv <;>
    norm_num at t0 t1 t2 t3 <;> omega

/-- C15: for every descriptor with `n_dims` in `[0,4]`, `reverse_ne()` returns with
`ne'[i] = ne[n_dims-1-i]` for every `i < n_dims` and `ne'[i] = ne[i]` for every
`i >= n_dims`; `n_dims` and every other field are untouched, and `nelements()`,
`nbytes()` are unchanged. -/
theorem reverse_ne_spec (G : TypeTraits) (t : TensorStorage)
    (h0 : 0 ≤ t.n_dims) (h4 : t.n_dims ≤ 4) :
    ∃ r, t.reverse_ne = some r ∧
      (∀ i : Int, 0 ≤ i → i < t.n_dims → r.ne.get? i = t.ne.get? (t.n_dims - 1 - i)) ∧
      (∀ i : Int, t.n_dims ≤ i → r.ne.get? i = t.ne.get? i) ∧
      r.n_dims = t.n_dims ∧ r.name = t.name ∧ r.type = t.type ∧ r.is_bf16 = t.is_bf16 ∧
      r.file_index = t.file_index ∧ r.index_in_zip = t.index_in_zip ∧ r.offset = t.offset ∧
      r.nelements = t.nelements ∧ r.nbytes G = t.nbytes G := by
  refine ⟨_, reverse_ne_eq t h4, ?_, ?_, rfl, rfl, rfl, rfl, rfl, rfl, rfl, ?_⟩
  · obtain ⟨name, ty, bf, ne, nd, fi, iz, off⟩ := t
    obtain ⟨a, b, c, e⟩ := ne
    simp only at h0 h4
    have hc : nd = 0 ∨ nd = 1 ∨ nd = 2 ∨ nd = 3 ∨ nd = 4 := by omega
    intro i hi0 hi
    simp only at hi
    rcases hc with h | h | h | h | h <;> subst h <;> interval_cases i <;> rfl
  · obtain ⟨name, ty, bf, ne, nd, fi, iz, off⟩ := t
    obtain ⟨a, b, c, e⟩ := ne
    simp only at h0 h4
    have hc : nd = 0 ∨ nd = 1 ∨ nd = 2 ∨ nd = 3 ∨ nd = 4 := by omega
    intro i hi
    simp only at hi
    rcases hc with h | h | h | h | h <;> subst h <;>
      simp only [reversed, Int64x4.get?] <;> norm_num <;>
      split_ifs <;> first | rfl | omega
  · have hE : nelements { t with ne := reversed t.ne t.n_dims } = t.nelements := by
      obtain ⟨name, ty, bf, ne, nd, fi, iz, off⟩ := t
      obtain ⟨a, b, c, e⟩ := ne
      simp only [nelements, reversed]
      split_ifs <;> ring
    exact ⟨hE, by simp only [nbytes, hE]⟩

/-- C18: splitting into one chunk is the identity: for every descriptor `t` with `n_dims`
in `[0,4]` and non-negative dimension sizes, `t.chunk(1)` returns exactly one descriptor,
equal to `t` in every field. -/
theorem chunk_one (G : TypeTraits) (t : TensorStorage)
    (h0 : 0 ≤ t.n_dims) (h4 : t.n_dims ≤ 4)
    (hnn : 0 ≤ t.ne.e0 ∧ 0 ≤ t.ne.e1 ∧ 0 ≤ t.ne.e2 ∧ 0 ≤ t.ne.e3) :
    ∃ t1, t.chunk G 1 = some ([t], t1) := by
  refine ⟨t, ?_⟩
  rw [chunk_eq G t 1 (by omega) h4]
  have hat : chunk_at G t 1 0 = t := by
    obtain ⟨name, ty, bf, ne, nd, fi, iz, off⟩ := t
    obtain ⟨a, b, c, e⟩ := ne
    obtain ⟨p0, p1, p2, p3⟩ := hnn
    simp only at h0 h4 p0 p1 p2 p3
    have hc : nd = 0 ∨ nd = 1 ∨ nd = 2 ∨ nd = 3 ∨ nd = 4 := by omega
    rcases hc with h | h | h | h | h <;> subst h <;>
      simp [chunk_at, reversed, size_t_of_int64_nonneg, p0, p1, p2, p3]
  rw [show List.range 1 = [0] from rfl, List.map_singleton, hat]

/-- C19: `unsqueeze()` changes only 2-D descriptors: for every descriptor with `n_dims`
different from 2 it leaves every field unchanged, and for every descriptor applying it
twice gives the same descriptor as applying it once. -/
theorem unsqueeze_idempotent (t : TensorStorage) :
    (t.n_dims ≠ 2 → t.unsqueeze = t) ∧ t.unsqueeze.unsqueeze = t.unsqueeze := by
  constructor
  · intro h
    simp [unsqueeze, h]
  · by_cases h : t.n_dims = 2
    · simp [unsqueeze, h]
    · simp [unsqueeze, h]

theorem Int64x4.set?_isSome (a : Int64x4) (i v : Int) (h0 : 0 ≤ i) (h3 : i ≤ 3) :
    ∃ b, a.set? i v = some b := by
  have hc : i = 0 ∨ i = 1 ∨ i = 2 ∨ i = 3 := by omega
  rcases hc with h | h | h | h <;> subst h <;> exact ⟨_, rfl⟩

theorem Int64x4.set?_none (a : Int64x4) (i v : Int) (h : 3 < i) : a.set? i v = none := by
  unfold Int64x4.set?
  rw [if_neg (by omega), if_neg (by omega), if_neg (by omega), if_neg (by omega)]

/-- The constructor's loop stays inside `ne[0..3]` when it stops at or before slot 3 and
the caller's array is long enough. -/
theorem init_loop_some (src : List Int) :
    ∀ (k : Nat) (i : Int) (dst : Int64x4), 0 ≤ i → i + k ≤ 4 → i.toNat + k ≤ src.length →
      ∃ dst1, init_loop src k i dst = some dst1 := by
  intro k
  induction k with
  | zero => intro i dst _ _ _; exact ⟨dst, rfl⟩
  | succ k ih =>
    intro i dst h0 h4 hlen
    have hlt : i.toNat < src.length := by omega
    obtain ⟨b, hb⟩ := Int64x4.set?_isSome dst i (src.get ⟨i.toNat, hlt⟩) h0 (by omega)
    obtain ⟨dst1, h1⟩ := ih (i + 1) b (by omega) (by push_cast at h4 ⊢; omega) (by omega)
    refine ⟨dst1, ?_⟩
    rw [init_loop, if_neg (by omega), List.get?_eq_get hlt]
    simp only [hb, h1]

/-- The constructor's loop writes `ne[4]` when it runs past slot 3. -/
theorem init_loop_none (src : List Int) :
    ∀ (k : Nat) (i : Int) (dst : Int64x4), 0 ≤ i → i ≤ 4 → 4 < i + k →
      init_loop src k i dst = none := by
  intro k
  induction k with
  | zero => intro i dst _ h4 h; simp at h; omega
  | succ k ih =>
    intro i dst h0 h4 h
    rw [init_loop, if_neg (by omega)]
    cases hg : src.get? i.toNat with
    | none => rfl
    | some v =>
      simp only
      by_cases hi : i = 4
      · rw [Int64x4.set?_none dst i v (by omega)]
      · obtain ⟨b, hb⟩ := Int64x4.set?_isSome dst i v h0 (by omega)
        simp only [hb]
        exact ih (i + 1) b (by omega) (by omega) (by push_cast at h ⊢; omega)

/-- C20: under the preconditions `0 <= n_dims <= 4` and `n >= 1` (block sizes are
positive), the constructor (given at least `n_dims` sizes), `reverse_ne()` and `chunk(n)`
return without indexing `ne` out of range or dividing by zero, and the divisor of
`nbytes()` is not zero; `unsqueeze()` only uses the constant indices 0 to 3.  Conversely,
for `n_dims > 4` `reverse_ne()`, the constructor and `chunk(n)` index `ne` out of range,
and `chunk(0)` divides by zero. -/
theorem no_out_of_range (G : TypeTraits) (t : TensorStorage) (n : Nat)
    (name : String) (type : ggml_type) (src : List Int) (file_index offset : Nat)
    (h0 : 0 ≤ t.n_dims) (h4 : t.n_dims ≤ 4) (hn : 1 ≤ n)
    (hsrc : t.n_dims.toNat ≤ src.length) :
    (init name type src t.n_dims file_index offset).isSome ∧
    t.reverse_ne.isSome ∧ (t.chunk G n).isSome ∧
    (G.ggml_blck_size t.type : Int) ≠ 0 ∧
    (∀ u : TensorStorage, 4 < u.n_dims →
      u.reverse_ne = none ∧ init name type src u.n_dims file_index offset = none ∧
      u.chunk G n = none) ∧
    (∀ u : TensorStorage, u.chunk G 0 = none) := by
  refine ⟨?_, ?_, ?_, ?_, ?_, ?_⟩
  · obtain ⟨dst, hdst⟩ := init_loop_some src t.n_dims.toNat 0 ⟨1, 1, 1, 1⟩ (by omega)
      (by omega) (by simpa using hsrc)
    simp [init, hdst]
  · simp [reverse_ne_eq t h4]
  · simp [chunk_eq G t n (by omega) h4]
  · have := G.blck_pos t.type
    omega
  · intro u hu
    refine ⟨reverse_ne_none u hu, ?_, ?_⟩
    · have hl := init_loop_none src u.n_dims.toNat 0 ⟨1, 1, 1, 1⟩ (by omega) (by omega)
        (by omega)
      simp [init, hl]
    · have hr := reverse_ne_none u hu
      unfold chunk
      rw [if_neg (by omega)]
      simp only [hr]
  · intro u
    simp [chunk]

/-- Witness of C15: the float32 tensor `[2, 3, 5]`, reversed to `[5, 3, 2]`. -/
theorem reverse_ne_spec_witness :
    (0 ≤ f32_2x3x5.n_dims ∧ f32_2x3x5.n_dims ≤ 4) ∧
    ∃ r, f32_2x3x5.reverse_ne = some r ∧
      (∀ i : Int, 0 ≤ i → i < f32_2x3x5.n_dims →
        r.ne.get? i = f32_2x3x5.ne.get? (f32_2x3x5.n_dims - 1 - i)) ∧
      (∀ i : Int, f32_2x3x5.n_dims ≤ i → r.ne.get? i = f32_2x3x5.ne.get? i) ∧
      r.n_dims = f32_2x3x5.n_dims ∧ r.name = f32_2x3x5.name ∧ r.type = f32_2x3x5.type ∧
      r.is_bf16 = f32_2x3x5.is_bf16 ∧ r.file_index = f32_2x3x5.file_index ∧
      r.index_in_zip = f32_2x3x5.index_in_zip ∧ r.offset = f32_2x3x5.offset ∧
      r.nelements = f32_2x3x5.nelements ∧ r.nbytes ggml = f32_2x3x5.nbytes ggml :=
  ⟨by decide, reverse_ne_spec ggml f32_2x3x5 (by decide) (by decide)⟩

/-- Witness of C16: the bf16-stored float32 matrix `[5, 4]` after `chunk(2)`. -/
theorem chunk_receiver_unchanged_witness :
    (0 ≤ bf16_5x4.n_dims ∧ bf16_5x4.n_dims ≤ 4 ∧ 1 ≤ 2) ∧
    ∃ cs t1, bf16_5x4.chunk ggml 2 = some (cs, t1) ∧ t1 = bf16_5x4 :=
  ⟨by decide, chunk_receiver_unchanged ggml bf16_5x4 2 (by decide) (by decide) (by decide)⟩

/-- Witness of C18: the float32 tensor `[2, 3, 5]` split in one chunk. -/
theorem chunk_one_witness :
    (0 ≤ f32_2x3x5.n_dims ∧ f32_2x3x5.n_dims ≤ 4 ∧
      (0 ≤ f32_2x3x5.ne.e0 ∧ 0 ≤ f32_2x3x5.ne.e1 ∧ 0 ≤ f32_2x3x5.ne.e2 ∧
        0 ≤ f32_2x3x5.ne.e3)) ∧
    ∃ t1, f32_2x3x5.chunk ggml 1 = some ([f32_2x3x5], t1) :=
  ⟨by decide, chunk_one ggml f32_2x3x5 (by decide) (by decide) (by decide)⟩

/-- Witness of C20: the float32 matrix `[3, 7]`, built from two sizes and split in 7. -/
theorem no_out_of_range_witness :
    (0 ≤ f32_3x7.n_dims ∧ f32_3x7.n_dims ≤ 4 ∧ 1 ≤ 7 ∧
      f32_3x7.n_dims.toNat ≤ ([3, 7] : List Int).length) ∧
    ((init "w" ggml_type.GGML_TYPE_F32 [3, 7] f32_3x7.n_dims 0 0).isSome ∧
      f32_3x7.reverse_ne.isSome ∧ (f32_3x7.chunk ggml 7).isSome ∧
      (ggml.ggml_blck_size f32_3x7.type : Int) ≠ 0 ∧
      (∀ u : TensorStorage, 4 < u.n_dims →
        u.reverse_ne = none ∧ init "w" ggml_type.GGML_TYPE_F32 [3, 7] u.n_dims 0 0 = none ∧
        u.chunk ggml 7 = none) ∧
      (∀ u : TensorStorage, u.chunk ggml 0 = none)) :=
  ⟨by decide,
    no_out_of_range ggml f32_3x7 7 "w" ggml_type.GGML_TYPE_F32 [3, 7] 0 0 (by decide)
      (by decide) (by decide) (by decide)⟩

end TensorStorage

end SD
